import Mathlib

/-!
Verification of the iscc-sum streaming fingerprint core.

The embedding follows `src/sum.rs` (IsccSumProcessor) and `src/main.rs`
(CLI driver) directly.  The crate modules `cdc`, `constants`, `data`,
`instance` and `minhash` are declared in `src/lib.rs` but their sources are
not in the tree; the `DataHasher` and `InstanceHasher` components are
therefore modelled from the specification (gear-hash CDC with normalized
chunking, streaming MinHash lanes, streaming cryptographic hash with a
64-bit byte counter), with fixed executable stand-ins for the frozen
constant tables whose values the proved properties do not depend on.
-/

set_option maxRecDepth 8192

namespace IsccSum

/-! ## Bits and bytes -/

/-- Value of a big-endian bit list. -/
def bitsToNat (bs : List Bool) : Nat :=
  bs.foldl (fun a b => 2 * a + (if b then 1 else 0)) 0

/-- The eight bits of a byte, most significant first. -/
def byteToBits (b : Nat) : List Bool :=
  [b.testBit 7, b.testBit 6, b.testBit 5, b.testBit 4,
   b.testBit 3, b.testBit 2, b.testBit 1, b.testBit 0]

/-- Concatenated bit stream of a byte list, each byte MSB first. -/
def bytesToBits (bs : List Nat) : List Bool :=
  (bs.map byteToBits).join

/-! ## RFC 4648 base32, uppercase, no padding -/

/-- The RFC 4648 base32 alphabet. -/
def b32Alphabet : List Char :=
  ['A','B','C','D','E','F','G','H','I','J','K','L','M',
   'N','O','P','Q','R','S','T','U','V','W','X','Y','Z',
   '2','3','4','5','6','7']

/-- Symbol for a 5-bit value. -/
def b32Char (v : Nat) : Char := b32Alphabet.getD v 'A'

/-- 5-bit value of five bits, most significant first. -/
def val5 (a b c d e : Bool) : Nat :=
  16 * (if a then 1 else 0) + 8 * (if b then 1 else 0) +
    4 * (if c then 1 else 0) + 2 * (if d then 1 else 0) +
    (if e then 1 else 0)

/-- Encode a bit stream in base32, zero-padding the final group to 5 bits. -/
def bitsToB32 : List Bool → List Char
  | [] => []
  | [a] => [b32Char (val5 a false false false false)]
  | [a, b] => [b32Char (val5 a b false false false)]
  | [a, b, c] => [b32Char (val5 a b c false false)]
  | [a, b, c, d] => [b32Char (val5 a b c d false)]
  | a :: b :: c :: d :: e :: rest => b32Char (val5 a b c d e) :: bitsToB32 rest

/-- RFC 4648 base32 encoding (uppercase, no padding) of a byte list. -/
def base32EncodeChars (bs : List Nat) : List Char :=
  bitsToB32 (bytesToBits bs)

/-- Value of a base32 symbol; `none` for characters outside the alphabet. -/
def b32CharVal (c : Char) : Option Nat :=
  match c with
  | 'A' => some 0
  | 'B' => some 1
  | 'C' => some 2
  | 'D' => some 3
  | 'E' => some 4
  | 'F' => some 5
  | 'G' => some 6
  | 'H' => some 7
  | 'I' => some 8
  | 'J' => some 9
  | 'K' => some 10
  | 'L' => some 11
  | 'M' => some 12
  | 'N' => some 13
  | 'O' => some 14
  | 'P' => some 15
  | 'Q' => some 16
  | 'R' => some 17
  | 'S' => some 18
  | 'T' => some 19
  | 'U' => some 20
  | 'V' => some 21
  | 'W' => some 22
  | 'X' => some 23
  | 'Y' => some 24
  | 'Z' => some 25
  | '2' => some 26
  | '3' => some 27
  | '4' => some 28
  | '5' => some 29
  | '6' => some 30
  | '7' => some 31
  | _ => none

/-- The five bits of a 5-bit value, most significant first. -/
def valToBits (v : Nat) : List Bool :=
  [v.testBit 4, v.testBit 3, v.testBit 2, v.testBit 1, v.testBit 0]

/-- Bit stream of a base32 text; fails on characters outside the alphabet. -/
def charsToBits : List Char → Option (List Bool)
  | [] => some []
  | c :: rest => do
      let v ← b32CharVal c
      let tail ← charsToBits rest
      pure (valToBits v ++ tail)

/-- Regroup a bit stream into bytes, discarding a trailing partial byte. -/
def bitsToBytesDrop : List Bool → List Nat
  | b1 :: b2 :: b3 :: b4 :: b5 :: b6 :: b7 :: b8 :: rest =>
      bitsToNat [b1, b2, b3, b4, b5, b6, b7, b8] :: bitsToBytesDrop rest
  | _ => []

/-- RFC 4648 base32 decoding of an unpadded text. -/
def base32DecodeChars (cs : List Char) : Option (List Nat) :=
  (charsToBits cs).map bitsToBytesDrop

/-! ### Round-trip of the base32 coder -/

theorem val5_lt (a b c d e : Bool) : val5 a b c d e < 32 := by
  cases a <;> cases b <;> cases c <;> cases d <;> cases e <;> decide

theorem b32CharVal_b32Char {v : Nat} (h : v < 32) :
    b32CharVal (b32Char v) = some v := by
  have hall : ∀ w, w < 32 → b32CharVal (b32Char w) = some w := by decide
  exact hall v h

theorem valToBits_val5 (a b c d e : Bool) :
    valToBits (val5 a b c d e) = [a, b, c, d, e] := by
  cases a <;> cases b <;> cases c <;> cases d <;> cases e <;> decide

theorem b32Char_mem {v : Nat} (h : v < 32) : b32Char v ∈ b32Alphabet := by
  have hall : ∀ w, w < 32 → b32Char w ∈ b32Alphabet := by decide
  exact hall v h

theorem mem_bitsToB32 {c : Char} {l : List Bool} (h : c ∈ bitsToB32 l) :
    c ∈ b32Alphabet := by
  induction l using bitsToB32.induct with
  | case1 => simp [bitsToB32] at h
  | case2 a =>
      simp [bitsToB32] at h
      exact h ▸ b32Char_mem (val5_lt _ _ _ _ _)
  | case3 a b =>
      simp [bitsToB32] at h
      exact h ▸ b32Char_mem (val5_lt _ _ _ _ _)
  | case4 a b c' =>
      simp [bitsToB32] at h
      exact h ▸ b32Char_mem (val5_lt _ _ _ _ _)
  | case5 a b c' d =>
      simp [bitsToB32] at h
      exact h ▸ b32Char_mem (val5_lt _ _ _ _ _)
  | case6 a b c' d e rest ih =>
      simp [bitsToB32] at h
      rcases h with h | h
      · exact h ▸ b32Char_mem (val5_lt _ _ _ _ _)
      · exact ih h

theorem charsToBits_bitsToB32 (l : List Bool) :
    charsToBits (bitsToB32 l) =
      some (l ++ List.replicate ((5 - l.length % 5) % 5) false) := by
  induction l using bitsToB32.induct with
  | case1 => decide
  | case2 a =>
      simp [bitsToB32, charsToBits, b32CharVal_b32Char (val5_lt a false false false false),
        valToBits_val5]
  | case3 a b =>
      simp [bitsToB32, charsToBits, b32CharVal_b32Char (val5_lt a b false false false),
        valToBits_val5]
  | case4 a b c =>
      simp [bitsToB32, charsToBits, b32CharVal_b32Char (val5_lt a b c false false),
        valToBits_val5]
  | case5 a b c d =>
      simp [bitsToB32, charsToBits, b32CharVal_b32Char (val5_lt a b c d false),
        valToBits_val5]
  | case6 a b c d e rest ih =>
      simp [bitsToB32, charsToBits, b32CharVal_b32Char (val5_lt a b c d e),
        valToBits_val5, ih, List.length_cons]
      have h5 : (5 + rest.length) % 5 = rest.length % 5 := Nat.add_mod_left 5 _
      have hlen : rest.length + 1 + 1 + 1 + 1 + 1 = 5 + rest.length := by omega
      rw [hlen, h5]

theorem bitsToBytesDrop_short {l : List Bool} (h : l.length < 8) :
    bitsToBytesDrop l = [] := by
  match l with
  | [] => rfl
  | [_] => rfl
  | [_, _] => rfl
  | [_, _, _] => rfl
  | [_, _, _, _] => rfl
  | [_, _, _, _, _] => rfl
  | [_, _, _, _, _, _] => rfl
  | [_, _, _, _, _, _, _] => rfl
  | _ :: _ :: _ :: _ :: _ :: _ :: _ :: _ :: _ => simp at h; omega

theorem bitsToNat_byteToBits {b : Nat} (h : b < 256) :
    bitsToNat (byteToBits b) = b := by
  have hall : ∀ w, w < 256 → bitsToNat (byteToBits w) = w := by decide
  exact hall b h

theorem bitsToBytesDrop_bytes (bs : List Nat) (extra : List Bool)
    (hb : ∀ b ∈ bs, b < 256) (he : extra.length < 8) :
    bitsToBytesDrop (bytesToBits bs ++ extra) = bs := by
  induction bs with
  | nil => simpa [bytesToBits] using bitsToBytesDrop_short he
  | cons b rest ih =>
      have hb0 : b < 256 := hb b (List.mem_cons_self _ _)
      have hrest : ∀ x ∈ rest, x < 256 := fun x hx => hb x (List.mem_cons_of_mem _ hx)
      simp only [bytesToBits, List.map_cons, List.join, byteToBits, List.cons_append,
        List.nil_append, List.append_assoc]
      show bitsToBytesDrop (_ :: _ :: _ :: _ :: _ :: _ :: _ :: _ :: _) = _
      rw [bitsToBytesDrop]
      have : bitsToNat [b.testBit 7, b.testBit 6, b.testBit 5, b.testBit 4,
          b.testBit 3, b.testBit 2, b.testBit 1, b.testBit 0] = b := by
        simpa [byteToBits] using bitsToNat_byteToBits hb0
      rw [this]
      congr 1
      simpa [bytesToBits] using ih hrest

theorem base32_roundtrip (bs : List Nat) (hb : ∀ b ∈ bs, b < 256) :
    base32DecodeChars (base32EncodeChars bs) = some bs := by
  unfold base32DecodeChars base32EncodeChars
  rw [charsToBits_bitsToB32]
  simp only [Option.map_some']
  congr 1
  apply bitsToBytesDrop_bytes bs _ hb
  rw [List.length_replicate]
  have hm := Nat.mod_lt (5 - (bytesToBits bs).length % 5) (show 0 < 5 by norm_num)
  omega

/-! ## DataHasher — content-defined chunking plus streaming MinHash

Modelled from the spec: `src/data.rs`, `src/cdc.rs`, `src/minhash.rs` and
`src/constants.rs` are declared in `src/lib.rs` but absent from the tree.
The state machine below follows §3/§4.1/§4.2 of the specification: a gear
rolling hash `h := (h <<< 1) + G[b]` over 64 bits, normalized chunking with
`min_size = 256`, `avg_size = 1024`, `max_size = 8192`,
`mask_small = 2^11 - 1`, `mask_large = 2^9 - 1`, a 32-bit chunk feature
taken from the low bits of the gear register at the boundary, and 64
MinHash lanes updated with a per-lane affine permutation over 32 bits.
The frozen gear table and per-lane constants are not in the tree; fixed
executable stand-ins are used, and no property proved here depends on
their values. -/

/-- Modelled from the spec: stand-in for the frozen 256-entry gear table of
64-bit constants from the missing `src/constants.rs`. -/
def gearTable (b : Nat) : Nat :=
  (b * 2654435761 + 40503 * (b + 7) * (b + 13) + 11400714819323198485) % 2 ^ 64

/-- Modelled from the spec: stand-in per-lane MinHash multiplier table. -/
def mhMul (i : Nat) : Nat := ((2 * i + 1) * 2654435761) % 2 ^ 32

/-- Modelled from the spec: stand-in per-lane MinHash offset table. -/
def mhAdd (i : Nat) : Nat := (i * 40503 + 2463534242) % 2 ^ 32

/-- CDC minimum chunk size (`avg_size / 4`). -/
def minSize : Nat := 256

/-- CDC average chunk size. -/
def avgSize : Nat := 1024

/-- CDC maximum chunk size (`avg_size * 8`). -/
def maxSize : Nat := 8192

/-- CDC strict-phase mask, `2 ^ 11 - 1`. -/
def maskSmall : Nat := 2047

/-- CDC loose-phase mask, `2 ^ 9 - 1`. -/
def maskLarge : Nat := 511

/-- Modelled from the spec: the streaming Data-Code hasher state — gear
register, open-chunk length, and the 64 MinHash lane minima. -/
structure DataHasher where
  h : Nat
  pos : Nat
  minima : List Nat
deriving Repr, DecidableEq

/-- Fresh Data-Code hasher: zero register, zero length, lanes at the
sentinel `0xFFFFFFFF`. -/
def DataHasher.new : DataHasher :=
  { h := 0, pos := 0, minima := List.replicate 64 4294967295 }

/-- Fold one 32-bit chunk feature into the 64 lane minima. -/
def addFeature (minima : List Nat) (f : Nat) : List Nat :=
  (List.range 64).map fun i =>
    min (minima.getD i 0) ((f * mhMul i + mhAdd i) % 2 ^ 32)

/-- One byte of the CDC state machine: update the gear register, test the
three-phase boundary rule, and on a boundary fold the chunk feature and
reset the register and length. -/
def DataHasher.processByte (st : DataHasher) (b : Nat) : DataHasher :=
  let h := (st.h <<< 1 + gearTable b) % 2 ^ 64
  let pos := st.pos + 1
  let boundary :=
    if pos < minSize then false
    else if pos < avgSize then h &&& maskSmall == 0
    else if pos < maxSize then h &&& maskLarge == 0
    else true
  if boundary then
    { h := 0, pos := 0, minima := addFeature st.minima (h % 2 ^ 32) }
  else
    { st with h := h, pos := pos }

/-- Ingest a slice byte by byte against the carried `(h, pos)` state. -/
def DataHasher.push (st : DataHasher) (data : List Nat) : DataHasher :=
  data.foldl DataHasher.processByte st

/-- Finalize to the 256-bit digest: the open chunk (when non-empty)
contributes a final feature from the current register, then the low four
bits of each lane are packed two lanes per output byte. -/
def DataHasher.digest (st : DataHasher) : List Nat :=
  let m := if st.pos = 0 then st.minima else addFeature st.minima (st.h % 2 ^ 32)
  (List.range 32).map fun k => (m.getD (2 * k) 0 % 16) * 16 + m.getD (2 * k + 1) 0 % 16

/-! ## InstanceHasher — streaming cryptographic digest plus byte counter

Modelled from the spec: `src/instance.rs` is declared in `src/lib.rs` but
absent from the tree.  Per §4.3 the state is an incremental cryptographic
hash (BLAKE3) over the exact bytes plus a 64-bit byte counter; the digest
is 32 bytes, and the multihash is `1e 20` followed by the digest in
lowercase hex.  The external BLAKE3 compression is replaced by a fixed
executable stand-in; no property proved here depends on its values. -/

/-- Modelled from the spec: stand-in for the external 32-byte BLAKE3
digest of a byte sequence. -/
def blake3Stub (bs : List Nat) : List Nat :=
  let s := bs.foldl (fun a b => (a * 1099511628211 + b + 257) % 2 ^ 64) 14695981039346656037
  (List.range 32).map fun k => (s / 2 ^ (k % 8) + k * 151) % 256

/-- Modelled from the spec: the streaming Instance-Code hasher state —
the absorbed byte stream of the incremental hash and the 64-bit counter. -/
structure InstanceHasher where
  absorbed : List Nat
  counter : Nat
deriving Repr, DecidableEq

/-- Fresh Instance-Code hasher. -/
def InstanceHasher.new : InstanceHasher :=
  { absorbed := [], counter := 0 }

/-- Absorb a slice and advance the 64-bit byte counter. -/
def InstanceHasher.push (st : InstanceHasher) (data : List Nat) : InstanceHasher :=
  { absorbed := st.absorbed ++ data, counter := (st.counter + data.length) % 2 ^ 64 }

/-- The 256-bit instance digest of the absorbed stream. -/
def InstanceHasher.digest (st : InstanceHasher) : List Nat :=
  blake3Stub st.absorbed

/-- Lowercase hex digit: `0`–`9` then `a`–`f`. -/
def hexChar (n : Nat) : Char :=
  if n < 10 then Char.ofNat (48 + n) else Char.ofNat (87 + n)

/-- Lowercase hex text of a byte list. -/
def hexOfBytes (bs : List Nat) : List Char :=
  (bs.map fun b => [hexChar (b / 16), hexChar (b % 16)]).join

/-- Multihash of the absorbed stream: code `0x1e`, length `0x20`, digest,
in lowercase hex. -/
def InstanceHasher.multihash (st : InstanceHasher) : String :=
  String.mk ('1' :: 'e' :: '2' :: '0' :: hexOfBytes st.digest)

/-- The byte counter. -/
def InstanceHasher.filesize (st : InstanceHasher) : Nat :=
  st.counter

/-! ## IsccSumProcessor — `src/sum.rs` -/

/-- `IsccSumProcessor` from `src/sum.rs`: a Data-Code hasher and an
Instance-Code hasher fed in lockstep. -/
structure IsccSumProcessor where
  data_hasher : DataHasher
  instance_hasher : InstanceHasher
deriving Repr, DecidableEq

/-- `IsccSumProcessor::new`. -/
def IsccSumProcessor.new : IsccSumProcessor :=
  { data_hasher := DataHasher.new, instance_hasher := InstanceHasher.new }

/-- `IsccSumProcessor::update`: fan the slice to both hashers. -/
def IsccSumProcessor.update (p : IsccSumProcessor) (data : List Nat) : IsccSumProcessor :=
  { data_hasher := p.data_hasher.push data,
    instance_hasher := p.instance_hasher.push data }

/-- The result record of `IsccSumProcessor::result` (the `IsccSumResult`
consumed by `src/main.rs`; the dictionary built in `src/sum.rs`). -/
structure IsccSumResult where
  iscc : String
  datahash : String
  filesize : Nat
  units : Option (List String)
deriving Repr, DecidableEq

/-- `IsccSumProcessor::result` from `src/sum.rs`: truncate the digests per
the `wide` flag, frame them behind the two header bytes, base32-encode
after the `ISCC:` prefix, and optionally attach the two full-length
256-bit unit tokens. -/
def IsccSumProcessor.result (p : IsccSumProcessor) (wide add_units : Bool) : IsccSumResult :=
  let data_digest := p.data_hasher.digest
  let instance_digest := p.instance_hasher.digest
  let data_code := if wide then data_digest.take 16 else data_digest.take 8
  let instance_code := if wide then instance_digest.take 16 else instance_digest.take 8
  let main_type : Nat := 0b0101
  let sub_type : Nat := if wide then 0b0111 else 0b0101
  let version : Nat := 0b0000
  let length : Nat := 0b0000
  let header_byte1 := (main_type <<< 4) ||| sub_type
  let header_byte2 := (version <<< 4) ||| length
  let iscc_bytes := header_byte1 :: header_byte2 :: (data_code ++ instance_code)
  let iscc := "ISCC:" ++ String.mk (base32EncodeChars iscc_bytes)
  let units :=
    if add_units then
      let data_iscc_bytes := ((0b0011 <<< 4 : Nat)) :: (0b0111 : Nat) :: data_digest
      let instance_iscc_bytes := ((0b0100 <<< 4 : Nat)) :: (0b0111 : Nat) :: instance_digest
      some ["ISCC:" ++ String.mk (base32EncodeChars data_iscc_bytes),
            "ISCC:" ++ String.mk (base32EncodeChars instance_iscc_bytes)]
    else none
  { iscc := iscc,
    datahash := p.instance_hasher.multihash,
    filesize := p.instance_hasher.filesize,
    units := units }

/-- `result` as a state transformer: the Rust method takes `&mut self`,
but sets no flag and leaves both hashers observably unchanged (the digest
reads are non-consuming), so the returned state is the input state. -/
def IsccSumProcessor.resultStep (p : IsccSumProcessor) (wide add_units : Bool) :
    IsccSumResult × IsccSumProcessor :=
  (p.result wide add_units, p)

/-! ## CLI driver — `src/main.rs` -/

/-- What the CLI finds at a path: the cases distinguished by
`process_file` in `src/main.rs` (missing path, not a regular file, read
failure, or a readable regular file whose reader yields the given
chunks). -/
inductive FileView where
  | missing
  | notRegular
  | readErr (msg : String)
  | regular (chunks : List (List Nat))
deriving Repr, DecidableEq

/-- `process_reader` from `src/main.rs`: feed every chunk the reader
yields to a fresh processor, then take the result with
`wide = !narrow` and no units. -/
def process_reader (chunks : List (List Nat)) (narrow : Bool) : IsccSumResult :=
  let p := chunks.foldl IsccSumProcessor.update IsccSumProcessor.new
  let wide := !narrow
  p.result wide false

/-- `process_file` from `src/main.rs`: error on a missing path or a
non-regular file (with the messages built there), propagate a read error,
and otherwise return the printed checksum line
`<iscc> *<filename>`. -/
def process_file (view : FileView) (path : String) (narrow : Bool) : Except String String :=
  match view with
  | .missing => Except.error (path ++ ": No such file or directory")
  | .notRegular => Except.error (path ++ ": Is not a regular file")
  | .readErr m => Except.error m
  | .regular chunks => Except.ok ((process_reader chunks narrow).iscc ++ " *" ++ path)

/-- The file loop of `run` in `src/main.rs`: process files in order,
collecting the printed lines, and stop at the first error. -/
def runFiles (fs : String → FileView) (narrow : Bool) : List String → List String × Option String
  | [] => ([], none)
  | f :: rest =>
    match process_file (fs f) f narrow with
    | Except.error e => ([], some e)
    | Except.ok line =>
        let r := runFiles fs narrow rest
        (line :: r.1, r.2)

/-- Observable outcome of a CLI invocation: the checksum lines printed to
stdout, the line printed to stderr (if any), and the exit code. -/
structure CliOutcome where
  stdoutLines : List String
  stderrLine : Option String
  exitCode : Nat
deriving Repr, DecidableEq

/-- `main` from `src/main.rs` on a list of file arguments: run the file
loop; on the first error print `isum: <msg>` to stderr via `error_exit`
and exit with code 1, otherwise exit with code 0. -/
def mainModel (fs : String → FileView) (files : List String) (narrow : Bool) : CliOutcome :=
  let r := runFiles fs narrow files
  match r.2 with
  | none => { stdoutLines := r.1, stderrLine := none, exitCode := 0 }
  | some e => { stdoutLines := r.1, stderrLine := some ("isum: " ++ e), exitCode := 1 }

/-! ## Supporting lemmas -/

theorem DataHasher.data_push_append (st : DataHasher) (a b : List Nat) :
    st.push (a ++ b) = (st.push a).push b := by
  simp [DataHasher.push, List.foldl_append]

theorem InstanceHasher.instance_push_append (st : InstanceHasher) (a b : List Nat) :
    st.push (a ++ b) = (st.push a).push b := by
  simp only [InstanceHasher.push, List.append_assoc, List.length_append,
    InstanceHasher.mk.injEq]
  refine ⟨trivial, ?_⟩
  omega

theorem IsccSumProcessor.update_append (p : IsccSumProcessor) (a b : List Nat) :
    p.update (a ++ b) = (p.update a).update b := by
  simp [IsccSumProcessor.update, DataHasher.data_push_append, InstanceHasher.instance_push_append]

theorem IsccSumProcessor.update_nil_new :
    IsccSumProcessor.new.update [] = IsccSumProcessor.new := by
  decide

theorem IsccSumProcessor.foldl_update (p : IsccSumProcessor) (s : List Nat)
    (parts : List (List Nat)) :
    parts.foldl IsccSumProcessor.update (p.update s) = p.update (s ++ parts.join) := by
  induction parts generalizing s with
  | nil => simp
  | cons a rest ih =>
      simp only [List.foldl_cons, List.join, ← IsccSumProcessor.update_append]
      rw [ih (s ++ a)]
      simp [List.append_assoc]

theorem IsccSumProcessor.foldl_update_join (parts : List (List Nat)) :
    parts.foldl IsccSumProcessor.update IsccSumProcessor.new =
      IsccSumProcessor.new.update parts.join := by
  have h := IsccSumProcessor.foldl_update IsccSumProcessor.new [] parts
  rw [IsccSumProcessor.update_nil_new] at h
  simpa using h

theorem DataHasher.data_digest_length (st : DataHasher) : st.digest.length = 32 := by
  simp [DataHasher.digest]

theorem DataHasher.data_digest_lt (st : DataHasher) : ∀ b ∈ st.digest, b < 256 := by
  intro b hb
  simp only [DataHasher.digest, List.mem_map, List.mem_range] at hb
  obtain ⟨k, _, rfl⟩ := hb
  have h1 := Nat.mod_lt ((if st.pos = 0 then st.minima else addFeature st.minima (st.h % 2 ^ 32)).getD (2 * k) 0) (show 0 < 16 by norm_num)
  have h2 := Nat.mod_lt ((if st.pos = 0 then st.minima else addFeature st.minima (st.h % 2 ^ 32)).getD (2 * k + 1) 0) (show 0 < 16 by norm_num)
  omega

theorem InstanceHasher.instance_digest_length (st : InstanceHasher) : st.digest.length = 32 := by
  simp [InstanceHasher.digest, blake3Stub]

theorem InstanceHasher.instance_digest_lt (st : InstanceHasher) : ∀ b ∈ st.digest, b < 256 := by
  intro b hb
  simp only [InstanceHasher.digest, blake3Stub, List.mem_map, List.mem_range] at hb
  obtain ⟨k, _, rfl⟩ := hb
  exact Nat.mod_lt _ (by norm_num)

theorem string_data_append (a b : String) : (a ++ b).data = a.data ++ b.data := rfl

/-- The characters after the `ISCC:` prefix are exactly the base32
encoding of the header-framed body bytes. -/
theorem result_iscc_drop (p : IsccSumProcessor) (w u : Bool) :
    ((p.result w u).iscc).data.drop 5 =
      base32EncodeChars ((if w then 87 else 85) :: 0 ::
        ((if w then p.data_hasher.digest.take 16 else p.data_hasher.digest.take 8) ++
         (if w then p.instance_hasher.digest.take 16 else p.instance_hasher.digest.take 8))) := by
  cases w <;> rfl

/-- Decoding the characters after the `ISCC:` prefix recovers the
header-framed body bytes. -/
theorem result_decode (p : IsccSumProcessor) (w u : Bool) :
    base32DecodeChars (((p.result w u).iscc).data.drop 5) =
      some ((if w then 87 else 85) :: 0 ::
        ((if w then p.data_hasher.digest.take 16 else p.data_hasher.digest.take 8) ++
         (if w then p.instance_hasher.digest.take 16 else p.instance_hasher.digest.take 8))) := by
  rw [result_iscc_drop]
  apply base32_roundtrip
  intro b hb
  simp only [List.mem_cons, List.mem_append] at hb
  rcases hb with rfl | rfl | hb | hb
  · cases w <;> norm_num
  · norm_num
  · cases w <;> exact DataHasher.data_digest_lt _ b (List.mem_of_mem_take hb)
  · cases w <;> exact InstanceHasher.instance_digest_lt _ b (List.mem_of_mem_take hb)

/-- The units list is the two full-length 256-bit tokens, with no
dependence on the `wide` flag. -/
theorem result_units_eq (p : IsccSumProcessor) (w : Bool) :
    (p.result w true).units =
      some ["ISCC:" ++ String.mk (base32EncodeChars
              (((0b0011 : Nat) <<< 4) :: (0b0111 : Nat) :: p.data_hasher.digest)),
            "ISCC:" ++ String.mk (base32EncodeChars
              (((0b0100 : Nat) <<< 4) :: (0b0111 : Nat) :: p.instance_hasher.digest))] := by
  cases w <;> rfl

/-! ## The claims -/

/-- C1, counterexample: a `result` call does not make the processor
terminal.  Concretely, push the byte `72`, call `result`, push the byte
`73` against the returned state, and call `result` again: the second call
succeeds, reports `filesize = 2`, and returns exactly the record of
pushing `[72, 73]` into a fresh processor — the late push was accepted
and processed, not rejected. -/
theorem C1_counterexample :
    (((((IsccSumProcessor.new.update [72]).resultStep false false).2.update
        [73]).resultStep false false).1).filesize = 2 ∧
    ((((IsccSumProcessor.new.update [72]).resultStep false false).2.update
        [73]).resultStep false false).1 =
      (IsccSumProcessor.new.update [72, 73]).result false false := by
  constructor
  · rfl
  · show ((IsccSumProcessor.new.update [72]).update [73]).result false false = _
    rw [← IsccSumProcessor.update_append]
    norm_num

/-- C1, amended: the processor is never terminal.  A `result` call leaves
the state unchanged, a later `update` is accepted and behaves exactly as
if the `result` call had not happened, and a further `result` call
succeeds with the usual value; no call is ever rejected. -/
theorem C1_not_terminal (p : IsccSumProcessor) (w u w2 u2 : Bool) (data : List Nat) :
    (p.resultStep w u).2 = p ∧
    ((p.resultStep w u).2.update data) = p.update data ∧
    (((p.resultStep w u).2).resultStep w2 u2).1 = p.result w2 u2 :=
  ⟨rfl, rfl, rfl⟩

/-- C2: slicing independence — feeding the consecutive parts of any
partition of a byte sequence to `update` in order and then calling
`result` produces the same record, field for field, as a single `update`
of the concatenated sequence, for every choice of the `wide` and
`add_units` flags. -/
theorem C2_slicing_independence (parts : List (List Nat)) (wide add_units : Bool) :
    ((parts.foldl IsccSumProcessor.update IsccSumProcessor.new).result wide add_units) =
      ((IsccSumProcessor.new.update parts.join).result wide add_units) := by
  rw [IsccSumProcessor.foldl_update_join]

/-- C3: for every input stream and both values of `wide`, base32-decoding
the token after the `ISCC:` prefix yields a first byte with high nibble
`0x5` and low nibble `0x5` (compact) or `0x7` (wide), and a second byte
equal to `0x00`. -/
theorem C3_header_fields (S : List Nat) (w u : Bool) :
    ∃ b0 body,
      base32DecodeChars ((((IsccSumProcessor.new.update S).result w u).iscc).data.drop 5) =
        some (b0 :: 0 :: body) ∧
      b0 / 16 = 5 ∧ b0 % 16 = (if w then 7 else 5) := by
  refine ⟨if w then 87 else 85, _, result_decode _ w u, ?_, ?_⟩ <;> cases w <;> norm_num

/-- C4: token shape — the `iscc` field begins with the literal `ISCC:`,
every following character is drawn from the RFC 4648 uppercase base32
alphabet with no padding character, and decoding the remainder yields
exactly 2 + 16 bytes (compact) or 2 + 32 bytes (wide). -/
theorem C4_token_shape (S : List Nat) (w u : Bool) :
    ((((IsccSumProcessor.new.update S).result w u).iscc).data.take 5 = ['I', 'S', 'C', 'C', ':']) ∧
    (∀ c ∈ (((IsccSumProcessor.new.update S).result w u).iscc).data.drop 5,
        c ∈ b32Alphabet ∧ c ≠ '=') ∧
    ∃ B, base32DecodeChars ((((IsccSumProcessor.new.update S).result w u).iscc).data.drop 5) =
        some B ∧ B.length = 2 + (if w then 32 else 16) := by
  refine ⟨?_, ?_, ?_⟩
  · cases w <;> rfl
  · intro c hc
    rw [result_iscc_drop] at hc
    simp only [base32EncodeChars] at hc
    have hmem : c ∈ b32Alphabet := mem_bitsToB32 hc
    refine ⟨hmem, ?_⟩
    intro he
    subst he
    revert hmem
    decide
  · refine ⟨_, result_decode _ w u, ?_⟩
    cases w <;>
      simp [List.length_take, DataHasher.data_digest_length, InstanceHasher.instance_digest_length]

/-- Taking the data half and the instance half out of the framed compact
and wide bodies lands in the same prefixes of the two digests. -/
theorem body_take_eight (d i : List Nat) (hd : d.length = 32) (hi : i.length = 32) :
    (((85 :: 0 :: (d.take 8 ++ i.take 8) : List Nat).drop 2).take 8 =
      ((87 :: 0 :: (d.take 16 ++ i.take 16) : List Nat).drop 2).take 8) ∧
    (((85 :: 0 :: (d.take 8 ++ i.take 8) : List Nat).drop 10).take 8 =
      ((87 :: 0 :: (d.take 16 ++ i.take 16) : List Nat).drop 18).take 8) := by
  have l1 : (d.take 8).length = 8 := by rw [List.length_take]; omega
  have l2 : (d.take 16).length = 16 := by rw [List.length_take]; omega
  constructor
  · show (d.take 8 ++ i.take 8).take 8 = (d.take 16 ++ i.take 16).take 8
    rw [List.take_left' l1, List.take_append_of_le_length (by omega), List.take_take]
    norm_num
  · show ((d.take 8 ++ i.take 8).drop 8).take 8 = ((d.take 16 ++ i.take 16).drop 16).take 8
    rw [List.drop_left' l1, List.drop_left' l2, List.take_take, List.take_take]
    norm_num

/-- C5: for the same input, the decoded compact body is prefix-consistent
with the decoded wide body — bytes 2..10 agree (data half) and compact
bytes 10..18 equal wide bytes 18..26 (instance half). -/
theorem C5_body_consistency (S : List Nat) (u : Bool) :
    ∃ Bc Bw,
      base32DecodeChars ((((IsccSumProcessor.new.update S).result false u).iscc).data.drop 5) =
        some Bc ∧
      base32DecodeChars ((((IsccSumProcessor.new.update S).result true u).iscc).data.drop 5) =
        some Bw ∧
      (Bc.drop 2).take 8 = (Bw.drop 2).take 8 ∧
      (Bc.drop 10).take 8 = (Bw.drop 18).take 8 := by
  have hd := DataHasher.data_digest_length (IsccSumProcessor.new.update S).data_hasher
  have hi := InstanceHasher.instance_digest_length (IsccSumProcessor.new.update S).instance_hasher
  refine ⟨_, _, result_decode _ false u, result_decode _ true u, ?_, ?_⟩
  · simpa using (body_take_eight _ _ hd hi).1
  · simpa using (body_take_eight _ _ hd hi).2

/-- C6: the `filesize` field equals the total number of bytes pushed, in
any slicing, whenever that total fits the 64-bit counter. -/
theorem C6_filesize (parts : List (List Nat)) (w u : Bool)
    (h : (parts.map List.length).sum < 2 ^ 64) :
    ((parts.foldl IsccSumProcessor.update IsccSumProcessor.new).result w u).filesize =
      (parts.map List.length).sum := by
  rw [IsccSumProcessor.foldl_update_join]
  show (IsccSumProcessor.new.update parts.join).instance_hasher.filesize = _
  simp only [IsccSumProcessor.update, IsccSumProcessor.new, InstanceHasher.push,
    InstanceHasher.new, InstanceHasher.filesize]
  rw [List.length_join]
  omega

/-- C6 witness: the theorem applied at the parts `[[0, 1], [2]]`. -/
theorem C6_filesize_witness :
    (([[0, 1], [2]] : List (List Nat)).map List.length).sum < 2 ^ 64 ∧
    ((([[0, 1], [2]] : List (List Nat)).foldl IsccSumProcessor.update
        IsccSumProcessor.new).result false false).filesize =
      (([[0, 1], [2]] : List (List Nat)).map List.length).sum :=
  ⟨by norm_num, C6_filesize [[0, 1], [2]] false false (by norm_num)⟩

/-- C7: with `add_units = true` the result carries exactly two unit
tokens: a Data unit whose decoded bytes are the header
`(0b0011 <<< 4) ||| 0b0000`, `(0b0000 <<< 4) ||| 0b0111` followed by the
full 32-byte data digest, then an Instance unit with header
`(0b0100 <<< 4) ||| 0b0000`, `(0b0000 <<< 4) ||| 0b0111` followed by the
full 32-byte instance digest, each base32-encoded after an `ISCC:`
prefix. -/
theorem C7_units_content (S : List Nat) (w : Bool) :
    ∃ du iu,
      ((IsccSumProcessor.new.update S).result w true).units = some [du, iu] ∧
      du.data.take 5 = ['I', 'S', 'C', 'C', ':'] ∧
      base32DecodeChars (du.data.drop 5) =
        some ((((0b0011 : Nat) <<< 4) ||| 0b0000) :: (((0b0000 : Nat) <<< 4) ||| 0b0111) ::
          (IsccSumProcessor.new.update S).data_hasher.digest) ∧
      (IsccSumProcessor.new.update S).data_hasher.digest.length = 32 ∧
      iu.data.take 5 = ['I', 'S', 'C', 'C', ':'] ∧
      base32DecodeChars (iu.data.drop 5) =
        some ((((0b0100 : Nat) <<< 4) ||| 0b0000) :: (((0b0000 : Nat) <<< 4) ||| 0b0111) ::
          (IsccSumProcessor.new.update S).instance_hasher.digest) ∧
      (IsccSumProcessor.new.update S).instance_hasher.digest.length = 32 := by
  refine ⟨_, _, result_units_eq _ w, rfl, ?_, DataHasher.data_digest_length _, rfl, ?_,
    InstanceHasher.instance_digest_length _⟩
  · have hb : ∀ b ∈ (((0b0011 : Nat) <<< 4) :: (0b0111 : Nat) ::
        (IsccSumProcessor.new.update S).data_hasher.digest), b < 256 := by
      intro b hb
      rcases List.mem_cons.1 hb with rfl | hb
      · decide
      rcases List.mem_cons.1 hb with rfl | hb
      · decide
      exact DataHasher.data_digest_lt _ b hb
    exact base32_roundtrip _ hb
  · have hb : ∀ b ∈ (((0b0100 : Nat) <<< 4) :: (0b0111 : Nat) ::
        (IsccSumProcessor.new.update S).instance_hasher.digest), b < 256 := by
      intro b hb
      rcases List.mem_cons.1 hb with rfl | hb
      · decide
      rcases List.mem_cons.1 hb with rfl | hb
      · decide
      exact InstanceHasher.instance_digest_lt _ b hb
    exact base32_roundtrip _ hb

/-- C8: the CLI `narrow` flag selects the form — `process_reader` with a
given `narrow` value is exactly the processor result over the whole byte
stream with `wide = !narrow` and no units; `-n` (narrow true) gives the
compact 64+64-bit form, its absence the 128+128-bit wide form. -/
theorem C8_narrow_flag (chunks : List (List Nat)) (narrow : Bool) :
    process_reader chunks narrow =
      (IsccSumProcessor.new.update chunks.join).result (!narrow) false := by
  unfold process_reader
  rw [IsccSumProcessor.foldl_update_join]

/-- C9: the units list returned with `add_units = true` is identical for
`wide = false` and `wide = true`; the `wide` flag never affects the two
full-length unit tokens. -/
theorem C9_units_wide_independent (S : List Nat) :
    ((IsccSumProcessor.new.update S).result false true).units =
      ((IsccSumProcessor.new.update S).result true true).units := by
  rw [result_units_eq, result_units_eq]

/-- The file loop stops at the first failing file: the collected lines
are exactly those of the preceding files, and the error is the failing
file's message. -/
theorem runFiles_first_error (fs : String → FileView) (narrow : Bool) (pre : List String)
    (bad : String) (post : List String) (e : String)
    (hpre : ∀ f ∈ pre, ∃ line, process_file (fs f) f narrow = Except.ok line)
    (hbad : process_file (fs bad) bad narrow = Except.error e) :
    runFiles fs narrow (pre ++ bad :: post) =
      (pre.filterMap (fun f => (process_file (fs f) f narrow).toOption), some e) := by
  induction pre with
  | nil => simp [runFiles, hbad]
  | cons f rest ih =>
      obtain ⟨line, hline⟩ := hpre f (List.mem_cons_self _ _)
      have hrest : ∀ g ∈ rest, ∃ l, process_file (fs g) g narrow = Except.ok l :=
        fun g hg => hpre g (List.mem_cons_of_mem _ hg)
      simp [runFiles, hline, ih hrest, Except.toOption]

/-- C10: with several file arguments, the CLI processes them in
command-line order and stops at the first failing file — the files before
it have their checksum lines printed, in order; the failing file produces
one `isum: `-prefixed message on stderr and exit code 1; and no line is
printed for the failing file or any file after it. -/
theorem C10_first_error_stops (fs : String → FileView) (pre post : List String)
    (bad : String) (narrow : Bool) (e : String)
    (hpre : ∀ f ∈ pre, ∃ line, process_file (fs f) f narrow = Except.ok line)
    (hbad : process_file (fs bad) bad narrow = Except.error e) :
    (mainModel fs (pre ++ bad :: post) narrow).exitCode = 1 ∧
    (mainModel fs (pre ++ bad :: post) narrow).stderrLine = some ("isum: " ++ e) ∧
    (mainModel fs (pre ++ bad :: post) narrow).stdoutLines =
      pre.filterMap (fun f => (process_file (fs f) f narrow).toOption) := by
  have h := runFiles_first_error fs narrow pre bad post e hpre hbad
  simp [mainModel, h]

/-- A three-file environment for the C10 witness: `a` readable, `b`
missing, `c` readable. -/
def cliFsExample : String → FileView := fun f =>
  if f = "a" then FileView.regular [[72]]
  else if f = "b" then FileView.missing
  else FileView.regular [[73]]

/-- C10 witness: the theorem applied to the arguments `a b c` where `b`
is missing. -/
theorem C10_first_error_stops_witness :
    (∀ f ∈ ["a"], ∃ line, process_file (cliFsExample f) f true = Except.ok line) ∧
    process_file (cliFsExample "b") "b" true = Except.error "b: No such file or directory" ∧
    ((mainModel cliFsExample (["a"] ++ "b" :: ["c"]) true).exitCode = 1 ∧
     (mainModel cliFsExample (["a"] ++ "b" :: ["c"]) true).stderrLine =
       some ("isum: " ++ "b: No such file or directory") ∧
     (mainModel cliFsExample (["a"] ++ "b" :: ["c"]) true).stdoutLines =
       ["a"].filterMap (fun f => (process_file (cliFsExample f) f true).toOption)) := by
  have h1 : ∀ f ∈ ["a"], ∃ line, process_file (cliFsExample f) f true = Except.ok line := by
    intro f hf
    simp only [List.mem_singleton] at hf
    subst hf
    exact ⟨_, rfl⟩
  have h2 : process_file (cliFsExample "b") "b" true =
      Except.error "b: No such file or directory" := rfl
  exact ⟨h1, h2, C10_first_error_stops cliFsExample ["a"] ["c"] "b" true
    "b: No such file or directory" h1 h2⟩

end IsccSum
